import Mathlib

/-!
Shallow embedding of the `xks` CLI wrapper (src/aks.go) and verification of
its specification.  The source file concatenates three variants of the same
program; definitions below name the variant they come from in their doc
comments.  External effects (the `az` subprocess, the `bash` shell, the file
system) are modelled as explicit parameters: directory state is a value of an
inductive tree type, and subprocess results are oracle arguments.
-/

/-- The token appended for one discovered file by the loop in
`invokeCmd.Run` (src/aks.go lines 199-202):
`fileParams += " --file \"" + file + "\""`. -/
def fileToken (file : String) : String :=
  " --file \"" ++ file ++ "\""

/-- The accumulator loop of `invokeCmd.Run` (variant 1, src/aks.go
lines 199-202): starting from the empty string, each discovered file
appends its `--file` token, left to right. -/
def fileParams (files : List String) : String :=
  files.foldl (fun acc file => acc ++ " --file \"" ++ file ++ "\"") ""

/-- The `strings.Builder` loop of `executeAzAksCommand` (variant 3,
src/aks.go lines 461-466): writes `" --file \""`, the file, `"\""` for each
file in order.  The written string is the same concatenation as
`fileParams`. -/
def fileParamsBuilder (files : List String) : String :=
  files.foldl (fun acc file => acc ++ " --file \"" ++ file ++ "\"") ""

/-- The command assembled by `invokeCmd.Run` (variant 1, src/aks.go line 204):
`"az aks command invoke " + resourceGroup + " " + aksName + " " + command +
fileParams`. -/
def fullCommandInvoke (resourceGroup aksName command : String)
    (files : List String) : String :=
  "az aks command invoke " ++ resourceGroup ++ " " ++ aksName ++ " " ++
    command ++ fileParams files

/-- The command assembled by `executeAzAksCommand` (variant 3, src/aks.go
lines 469-470):
`fmt.Sprintf("az aks command invoke %s --resource-group %s --name %s %s",
command, resourceGroup, aksName, fileParams.String())`.  Note the user
command comes immediately after the fixed head, before the resource group
and cluster name. -/
def executeAzAksCommand (command resourceGroup aksName : String)
    (files : List String) : String :=
  "az aks command invoke " ++ command ++ " --resource-group " ++
    resourceGroup ++ " --name " ++ aksName ++ " " ++ fileParamsBuilder files

/-- Modelled from the spec's words, for comparison with the code (claim about
assembly order): "Builds the final invocation by concatenating: fixed prefix,
resource group, cluster name, the user command, then the accumulated file
tokens." -/
def specOrderCommand (resourceGroup aksName command : String)
    (files : List String) : String :=
  "az aks command invoke " ++ resourceGroup ++ " " ++ aksName ++ " " ++
    command ++ fileParams files

/-- Helper: a left fold of string appends starting from `a` factors `a` out. -/
theorem foldl_append_factor (l : List String) (a : String) :
    l.foldl (fun x y => x ++ y) a = a ++ l.foldl (fun x y => x ++ y) "" := by
  induction l generalizing a with
  | nil => simp
  | cons x xs ih =>
    simp only [List.foldl_cons]
    rw [ih (a ++ x), ih ("" ++ x)]
    simp [String.append_assoc]

/-- Helper: `String.join` of a cons peels off the head. -/
theorem join_cons (t : String) (rest : List String) :
    String.join (t :: rest) = t ++ String.join rest := by
  show rest.foldl (fun x y => x ++ y) ("" ++ t) = _
  rw [foldl_append_factor rest ("" ++ t)]
  simp [String.join]

/-- Helper: the accumulator loop, run from an arbitrary accumulator, appends
the joined tokens of the file list. -/
theorem fileParams_foldl (files : List String) (acc : String) :
    files.foldl (fun a file => a ++ " --file \"" ++ file ++ "\"") acc =
      acc ++ String.join (files.map fileToken) := by
  induction files generalizing acc with
  | nil => simp [String.join]
  | cons f fs ih =>
    show fs.foldl _ (acc ++ " --file \"" ++ f ++ "\"") = _
    rw [ih, List.map_cons, join_cons]
    simp [fileToken, String.append_assoc]

/-- Helper: each file list maps to exactly its token string, joined. -/
theorem fileParams_eq_join (files : List String) :
    fileParams files = String.join (files.map fileToken) :=
  fileParams_foldl files ""

/-!
File-system model.  A directory's state is a tree: plain files, directories
with children, and entries whose `stat` fails (`errNode`, carrying the error
message the walk callback would receive).  Children lists are kept in the
lexically sorted order that both `filepath.Walk` and `os.ReadDir` present
entries in, so list order is discovery order for both variants.
-/

/-- One node of the directory tree: a file, a directory, or an entry whose
stat fails with the given message. -/
inductive FSNode where
  | file (name : String)
  | dir (name : String) (children : List FSNode)
  | errNode (name : String) (msg : String)

/-- Models `filepath.Join(dir, name)` for clean, separator-free components:
joining onto `"."` drops the dot, otherwise a `/` separates. -/
def fpJoin (dir name : String) : String :=
  if dir = "." then name else dir ++ "/" ++ name

mutual

/-- One visit of the `filepath.Walk` callback in `discoverFiles` (variant 1,
src/aks.go lines 112-120): an entry whose stat fails makes the callback
return that error, aborting the whole walk; a file whose path differs from
`dirPath + os.PathSeparator` is appended; a directory is skipped and its
children are walked. -/
def walkVisit (dirPath parentPath : String) : FSNode → Except String (List String)
  | .errNode _ msg => .error msg
  | .file n =>
      let p := fpJoin parentPath n
      .ok (if p ≠ dirPath ++ "/" then [p] else [])
  | .dir n children => walkChildren dirPath (fpJoin parentPath n) children

/-- Walks a directory's children in order, concatenating discovered files;
the first callback error aborts the walk. -/
def walkChildren (dirPath parentPath : String) :
    List FSNode → Except String (List String)
  | [] => .ok []
  | c :: cs => do
      let l ← walkVisit dirPath parentPath c
      let ls ← walkChildren dirPath parentPath cs
      pure (l ++ ls)

end

/-- `filepath.Walk(dirPath, fn)`: the root is visited at path `dirPath`
itself (a root directory is skipped by the `!info.IsDir()` guard; a failing
root stat invokes the callback with the error). -/
def walkRoot (dirPath : String) (root : FSNode) : Except String (List String) :=
  match root with
  | .errNode _ msg => .error msg
  | .file _ => .ok (if dirPath ≠ dirPath ++ "/" then [dirPath] else [])
  | .dir _ children => walkChildren dirPath dirPath children

/-- `discoverFiles` (variant 1, src/aks.go lines 110-125): recursive walk;
on any walk error returns `nil` and the wrapped error, otherwise the file
list. -/
def discoverFiles (dirPath : String) (root : FSNode) :
    Except String (List String) :=
  match walkRoot dirPath root with
  | .error e => .error ("failed to discover files: " ++ e)
  | .ok files => .ok files

/-- `discoverFiles` (variant 3, src/aks.go lines 584-599): flat
`os.ReadDir` listing; appends `filepath.Join(dir, name)` for each
non-directory entry.  `os.ReadDir` on a non-directory fails; an entry whose
later stat would fail is just a directory entry here and, being of unknown
kind, is not appended (theorems comparing the variants assume no such
entry). -/
def discoverFilesFlat (dir : String) (root : FSNode) :
    Except String (List String) :=
  match root with
  | .errNode _ msg => .error msg
  | .file _ => .error "not a directory"
  | .dir _ children =>
      .ok (children.foldl
        (fun acc e =>
          match e with
          | .file n => acc ++ [fpJoin dir n]
          | _ => acc) [])

/-- `invokeCmd.Run` (variant 1, src/aks.go lines 191-216): joins the
arguments with spaces, discovers files in `"."` (failure wraps the error and
aborts), assembles the full command and hands it to `bash -c` (modelled by
the `bash` oracle mapping the command string to its combined-output
result). -/
def invokeRun (resourceGroup aksName : String) (args : List String)
    (root : FSNode) (bash : String → Except String String) :
    Except String String :=
  let command := String.intercalate " " args
  match discoverFiles "." root with
  | .error e => .error ("failed to discover files: " ++ e)
  | .ok files =>
      let fullCommand := fullCommandInvoke resourceGroup aksName command files
      match bash fullCommand with
      | .error e => .error ("command failed: " ++ e)
      | .ok output => .ok output

/-!
Credentials and authentication (variant 1, src/aks.go lines 25-75).  The
process environment is a total map from variable name to value
(`os.Getenv` yields `""` for an unset variable).  Subprocess invocations are
recorded as `AzCall` values; the `az login` result is an oracle boolean.
-/

/-- The package-level globals of variant 1 that `authenticate` reads. -/
structure Globals where
  appID : String
  clientSecret : String
  tenantID : String
  loggedIn : Bool
deriving DecidableEq

/-- A recorded subprocess invocation: argument vector plus the extra
environment entries appended to `os.Environ()`. -/
structure AzCall where
  args : List String
  extraEnv : List String
deriving DecidableEq

/-- `loadCredentials` (variant 1, src/aks.go lines 35-51).  The Go source
declares `appID := os.Getenv(...)` etc. with `:=`, creating locals that
shadow the globals, and the later `appID = appID` lines assign each local to
itself, so the globals are never written: on success the global state is
returned unchanged. -/
def loadCredentials (env : String → String) (g : Globals) :
    Except String Globals :=
  let appID := env "AZURE_APP_ID"
  let clientSecret := env "AZURE_CLIENT_SECRET"
  let tenantID := env "AZURE_TENANT_ID"
  if appID = "" ∨ clientSecret = "" ∨ tenantID = "" then
    .error "missing required environment variables: AZURE_APP_ID, AZURE_CLIENT_SECRET, AZURE_TENANT_ID"
  else
    .ok g

/-- The `az login` invocation built by `authenticate` (variant 1, src/aks.go
lines 61-65): the extra environment entries are built from the globals. -/
def loginCall (g : Globals) : AzCall :=
  { args := ["az", "login", "--service-principal", "-i"],
    extraEnv := ["AZURE_APP_ID=" ++ g.appID,
                 "AZURE_CLIENT_SECRET=" ++ g.clientSecret,
                 "AZURE_TENANT_ID=" ++ g.tenantID] }

/-- `authenticate` (variant 1, src/aks.go lines 54-75): loads credentials
first and returns the wrapped error with no subprocess run when that fails;
otherwise runs `az login` (result modelled by `loginOk`), on success setting
`loggedIn`.  Returns the result together with the list of subprocess calls
made. -/
def authenticate (env : String → String) (g : Globals) (loginOk : Bool) :
    Except String Globals × List AzCall :=
  match loadCredentials env g with
  | .error e => (.error ("failed to load credentials: " ++ e), [])
  | .ok g2 =>
      if loginOk then
        (.ok { g2 with loggedIn := true }, [loginCall g2])
      else
        (.error "authentication failed", [loginCall g2])

/-!
Session state of variant 3 (src/aks.go lines 404-456): a login flag and the
current subscription identifier.  `rest.NewSubscriptionsClient` is an
external call modelled by the `clientOk` oracle.
-/

/-- The globals of variant 3 read by `setSubscription` / `getSubscription`. -/
structure Session where
  loggedIn : Bool
  currentSubID : String
deriving DecidableEq

/-- `setSubscription` (variant 3, src/aks.go lines 433-447): requires a
login, checks the subscriptions client can be built, then stores the
override in `currentSubID`. -/
def setSubscription (subscriptionID : String) (clientOk : Bool)
    (s : Session) : Except String Session :=
  if !s.loggedIn then
    .error "not authenticated - cannot set subscription"
  else if !clientOk then
    .error "failed to create subscriptions client"
  else
    .ok { s with currentSubID := subscriptionID }

/-- `getSubscription` (variant 3, src/aks.go lines 450-456): requires a
login and returns `currentSubID`. -/
def getSubscription (s : Session) : Except String String :=
  if !s.loggedIn then
    .error "not authenticated - no subscription is set"
  else
    .ok s.currentSubID

/-!
Output parsing in `getSubscriptionID` (variant 1, src/aks.go lines 78-95).
The subprocess output is a list of characters; `strings.Split` and
`strings.Contains` are embedded over character lists.
-/

/-- Models Go `strings.Split(s, sep)` for a one-character separator. -/
def splitOnChar (sep : Char) : List Char → List (List Char)
  | [] => [[]]
  | c :: cs =>
      if c = sep then [] :: splitOnChar sep cs
      else
        match splitOnChar sep cs with
        | [] => [[c]]
        | h :: t => (c :: h) :: t

/-- Whether `needle` occurs at the start of `hay`. -/
def startsWithList : List Char → List Char → Bool
  | [], _ => true
  | _ :: _, [] => false
  | a :: as, b :: bs => a = b && startsWithList as bs

/-- Models Go `strings.Contains(hay, needle)`: `needle` occurs somewhere in
`hay`. -/
def containsList (needle : List Char) : List Char → Bool
  | [] => startsWithList needle []
  | b :: bs => startsWithList needle (b :: bs) || containsList needle bs

/-- The guard of the parsing loop (src/aks.go line 88):
`strings.Contains(line, "id:")`. -/
def lineHasID (line : List Char) : Bool :=
  containsList ['i', 'd', ':'] line

/-!
Helpers comparing the two discovery variants.
-/

mutual

/-- A subtree contributes nothing to a walk: no files and no failing
entries anywhere in it. -/
def nodeClean : FSNode → Bool
  | .file _ => false
  | .errNode _ _ => false
  | .dir _ cs => listClean cs

/-- All nodes of the list are clean. -/
def listClean : List FSNode → Bool
  | [] => true
  | c :: cs => nodeClean c && listClean cs

end

/-- A directory-entry name as a real file system produces it: nonempty and
not literally `"./"` (which would collide with the walk's root-path
guard). -/
def goodName (n : String) : Bool :=
  n ≠ "" && n ≠ "./"

/-- A top-level entry on which the two discovery variants act alike: a
plain file with an ordinary name, or a subtree holding no files and no
failing entries. -/
def entryAgrees : FSNode → Bool
  | .file n => goodName n
  | .errNode _ _ => false
  | .dir _ cs => listClean cs

/-- The path the flat variant would record for a top-level entry, if any. -/
def flatEntry (dir : String) : FSNode → Option String
  | .file n => some (fpJoin dir n)
  | _ => none

mutual

/-- Walking a clean node yields no files and no error. -/
theorem nodeClean_walkVisit (c : FSNode) (h : nodeClean c = true)
    (d p : String) : walkVisit d p c = .ok [] := by
  cases c with
  | file n => simp [nodeClean] at h
  | errNode n m => simp [nodeClean] at h
  | dir n cs =>
      simp only [nodeClean] at h
      exact listClean_walkChildren cs h d (fpJoin p n)

/-- Walking a clean list of children yields no files and no error. -/
theorem listClean_walkChildren (cs : List FSNode) (h : listClean cs = true)
    (d p : String) : walkChildren d p cs = .ok [] := by
  cases cs with
  | nil => simp [walkChildren]
  | cons c cs2 =>
      simp only [listClean, Bool.and_eq_true] at h
      have h1 := nodeClean_walkVisit c h.1 d p
      have h2 := listClean_walkChildren cs2 h.2 d p
      simp only [walkChildren, h1, h2]
      rfl

end

/-- An ordinary entry name never collides with the walk's root-path guard. -/
theorem goodName_guard (dir n : String) (h : goodName n = true) :
    fpJoin dir n ≠ dir ++ "/" := by
  simp only [goodName, Bool.and_eq_true, decide_eq_true_eq] at h
  unfold fpJoin
  split
  · rename_i hd
    subst hd
    have hdot : ("." : String) ++ "/" = "./" := rfl
    rw [hdot]
    exact h.2
  · intro heq
    apply h.1
    have hl := congrArg String.length heq
    simp [String.length_append] at hl
    cases n with
    | mk data =>
        cases data with
        | nil => rfl
        | cons c cs => simp [String.length] at hl

/-- The flat variant's loop, from an arbitrary accumulator, appends the
paths of the top-level plain files in order. -/
theorem flat_foldl_eq (dir : String) (children : List FSNode)
    (acc : List String) :
    children.foldl
      (fun acc e =>
        match e with
        | FSNode.file n => acc ++ [fpJoin dir n]
        | _ => acc) acc = acc ++ children.filterMap (flatEntry dir) := by
  induction children generalizing acc with
  | nil => simp
  | cons c cs ih =>
      cases c with
      | file n => simp [List.foldl_cons, flatEntry, ih]
      | dir n cs2 => simp [List.foldl_cons, flatEntry, ih]
      | errNode n m => simp [List.foldl_cons, flatEntry, ih]

/-- When every top-level entry is one the variants agree on, the walk of
the children returns exactly the flat listing. -/
theorem walkChildren_agree (dirPath : String) (children : List FSNode)
    (h : children.all entryAgrees = true) :
    walkChildren dirPath dirPath children =
      .ok (children.filterMap (flatEntry dirPath)) := by
  induction children with
  | nil => simp [walkChildren]
  | cons c cs ih =>
      simp only [List.all_cons, Bool.and_eq_true] at h
      have hrest := ih h.2
      cases c with
      | file n =>
          have hg : fpJoin dirPath n ≠ dirPath ++ "/" :=
            goodName_guard dirPath n h.1
          simp only [walkChildren, walkVisit, hrest, hg, flatEntry,
            if_pos hg, ne_eq, not_false_eq_true, if_true]
          rfl
      | errNode n m => simp [entryAgrees] at h
      | dir n cs2 =>
          have h0 : listClean cs2 = true := h.1
          have hv : walkVisit dirPath dirPath (.dir n cs2) = .ok [] := by
            show walkChildren dirPath (fpJoin dirPath n) cs2 = .ok []
            exact listClean_walkChildren cs2 h0 dirPath (fpJoin dirPath n)
          simp only [walkChildren, hv, hrest, flatEntry]
          rfl

/-- Every character of a matched leading occurrence is in the haystack. -/
theorem startsWithList_subset (needle hay : List Char)
    (h : startsWithList needle hay = true) :
    ∀ c ∈ needle, c ∈ hay := by
  induction needle generalizing hay with
  | nil => intro c hc; cases hc
  | cons a as ih =>
      cases hay with
      | nil => simp [startsWithList] at h
      | cons b bs =>
          simp only [startsWithList, Bool.and_eq_true, decide_eq_true_eq] at h
          intro c hc
          rcases List.mem_cons.mp hc with hca | hcas
          · exact List.mem_cons.mpr (Or.inl (hca.trans h.1))
          · exact List.mem_cons.mpr (Or.inr (ih bs h.2 c hcas))

/-- Every character of a contained needle is in the haystack. -/
theorem containsList_mem (needle hay : List Char)
    (h : containsList needle hay = true) :
    ∀ c ∈ needle, c ∈ hay := by
  induction hay with
  | nil =>
      intro c hc
      cases needle with
      | nil => cases hc
      | cons a as => simp [containsList, startsWithList] at h
  | cons b bs ih =>
      simp only [containsList, Bool.or_eq_true] at h
      intro c hc
      rcases h with h1 | h2
      · exact startsWithList_subset needle (b :: bs) h1 c hc
      · exact List.mem_cons.mpr (Or.inr (ih h2 c hc))

/-- `splitOnChar` never returns an empty list of parts. -/
theorem splitOnChar_ne_nil (sep : Char) (l : List Char) :
    splitOnChar sep l ≠ [] := by
  cases l with
  | nil => simp [splitOnChar]
  | cons c cs =>
      simp only [splitOnChar]
      split
      · simp
      · split <;> simp

/-- A string containing the separator splits into at least two parts. -/
theorem two_le_splitOnChar_length (sep : Char) (l : List Char)
    (h : sep ∈ l) : 2 ≤ (splitOnChar sep l).length := by
  induction l with
  | nil => cases h
  | cons c cs ih =>
      by_cases hc : c = sep
      · subst hc
        simp only [splitOnChar, if_pos rfl, List.length_cons]
        have hne := splitOnChar_ne_nil c cs
        cases hs : splitOnChar c cs with
        | nil => exact absurd hs hne
        | cons a t => simp [hs]
      · have hcs : sep ∈ cs := by
          rcases List.mem_cons.mp h with h1 | h2
          · exact absurd h1.symm hc
          · exact h2
        have ih2 := ih hcs
        cases hs : splitOnChar sep cs with
        | nil => exact absurd hs (splitOnChar_ne_nil sep cs)
        | cons a t =>
            rw [hs] at ih2
            simp only [List.length_cons] at ih2
            have hcne : ¬ c = sep := hc
            simp only [splitOnChar, if_neg hcne, hs, List.length_cons]
            omega

/-!
Claim theorems.
-/

/-- C1: For every list of discovered files, the command assembler appends
exactly one `--file "<path>"` token per discovered file to the accumulator
string, in discovery order (a directory with files a.txt and b.yaml yields
exactly two `--file` tokens), and an empty discovery list yields an
assembled command with zero `--file` tokens and no error. -/
theorem fileParams_one_token_per_file :
    (∀ files : List String,
        fileParams files = String.join (files.map fileToken) ∧
        (files.map fileToken).length = files.length) ∧
    fileParams [] = "" ∧
    (∀ resourceGroup aksName command : String,
        fullCommandInvoke resourceGroup aksName command [] =
          "az aks command invoke " ++ resourceGroup ++ " " ++ aksName ++
            " " ++ command) ∧
    discoverFiles "." (.dir "." []) = .ok [] ∧
    discoverFiles "." (.dir "." [.file "a.txt", .file "b.yaml"]) =
      .ok ["a.txt", "b.yaml"] ∧
    fileParams ["a.txt", "b.yaml"] = fileToken "a.txt" ++ fileToken "b.yaml" := by
  refine ⟨fun files => ⟨fileParams_eq_join files, by simp⟩, rfl, ?_, rfl, rfl, rfl⟩
  intro resourceGroup aksName command
  show _ ++ fileParams [] = _
  rw [show fileParams [] = "" from rfl, String.append_empty]

/-- C2 counterexample: `executeAzAksCommand` does not follow the claimed
order; it places the user command before the resource group and cluster
name, so the assembled string differs from the spec-ordered one even with
no files. -/
theorem executeAzAksCommand_order_counterexample :
    executeAzAksCommand "get pods" "myRG" "myAKS" [] ≠
      specOrderCommand "myRG" "myAKS" "get pods" [] := by
  decide

/-- C2 amended: the invoke subcommand's assembled string follows the claimed
order (fixed head, resource group, cluster name, user command, file
tokens), while `executeAzAksCommand` assembles, in order: fixed head, the
user command, `--resource-group` with the group, `--name` with the cluster
name, then the accumulated file tokens. -/
theorem assembled_command_order (resourceGroup aksName command : String)
    (files : List String) :
    fullCommandInvoke resourceGroup aksName command files =
      specOrderCommand resourceGroup aksName command files ∧
    executeAzAksCommand command resourceGroup aksName files =
      "az aks command invoke " ++ command ++ " --resource-group " ++
        resourceGroup ++ " --name " ++ aksName ++ " " ++
        String.join (files.map fileToken) := by
  refine ⟨rfl, ?_⟩
  show _ ++ fileParamsBuilder files = _
  rw [show fileParamsBuilder files = fileParams files from rfl,
    fileParams_eq_join]

/-- C3: if the directory traversal fails at any point, `discoverFiles`
returns the wrapped error and no file list, and `invokeCmd.Run` aborts with
an error — for every possible shell oracle, so no assembled command is ever
executed and no partial file list is used. -/
theorem discover_error_aborts_invoke (root : FSNode) (e : String)
    (h : walkRoot "." root = .error e) :
    discoverFiles "." root = .error ("failed to discover files: " ++ e) ∧
    ∀ (resourceGroup aksName : String) (args : List String)
      (bash : String → Except String String),
      invokeRun resourceGroup aksName args root bash =
        .error ("failed to discover files: " ++
          ("failed to discover files: " ++ e)) := by
  have hd : discoverFiles "." root =
      .error ("failed to discover files: " ++ e) := by
    unfold discoverFiles
    rw [h]
  exact ⟨hd, fun resourceGroup aksName args bash => by
    simp [invokeRun, hd]⟩

/-- C3 witness: a walk hitting a permission error on an entry of `.` aborts
the whole invocation. -/
theorem discover_error_aborts_invoke_witness :
    walkRoot "." (FSNode.dir "." [FSNode.errNode "a.txt" "permission denied"]) =
      .error "permission denied" ∧
    invokeRun "myRG" "myAKS" ["kubectl", "get", "pods"]
      (FSNode.dir "." [FSNode.errNode "a.txt" "permission denied"])
      (fun _ => .ok "should never run") =
      .error ("failed to discover files: " ++
        ("failed to discover files: " ++ "permission denied")) :=
  ⟨rfl,
   (discover_error_aborts_invoke
      (FSNode.dir "." [FSNode.errNode "a.txt" "permission denied"])
      "permission denied" rfl).2 "myRG" "myAKS" ["kubectl", "get", "pods"]
      (fun _ => .ok "should never run")⟩

/-- C4: if any of the three credential environment variables is missing or
empty, `authenticate` returns an error and the list of subprocess calls made
is empty: no external-CLI login command is executed. -/
theorem authenticate_missing_env_no_subprocess (env : String → String)
    (g : Globals) (loginOk : Bool)
    (h : env "AZURE_APP_ID" = "" ∨ env "AZURE_CLIENT_SECRET" = "" ∨
         env "AZURE_TENANT_ID" = "") :
    (authenticate env g loginOk).1 =
      .error ("failed to load credentials: " ++
        "missing required environment variables: AZURE_APP_ID, AZURE_CLIENT_SECRET, AZURE_TENANT_ID") ∧
    (authenticate env g loginOk).2 = [] := by
  have hl : loadCredentials env g = .error
      "missing required environment variables: AZURE_APP_ID, AZURE_CLIENT_SECRET, AZURE_TENANT_ID" := by
    simp only [loadCredentials]
    rw [if_pos h]
  constructor <;> simp [authenticate, hl]

/-- C4 witness: with an entirely empty environment, authentication fails and
no subprocess runs. -/
theorem authenticate_missing_env_no_subprocess_witness :
    ((fun _ : String => "") "AZURE_APP_ID" = "" ∨
     (fun _ : String => "") "AZURE_CLIENT_SECRET" = "" ∨
     (fun _ : String => "") "AZURE_TENANT_ID" = "") ∧
    (authenticate (fun _ => "") ⟨"", "", "", false⟩ true).2 = [] :=
  ⟨Or.inl rfl,
   (authenticate_missing_env_no_subprocess (fun _ => "") ⟨"", "", "", false⟩
      true (Or.inl rfl)).2⟩

/-- C5: file discovery is deterministic and idempotent: two runs on the
same unchanged directory state yield identical results (paths and order),
for both discovery variants — in the embedding, both are pure functions of
the directory state, with no hidden inputs. -/
theorem discoverFiles_deterministic (dirPath : String) (r1 r2 : FSNode)
    (h : r1 = r2) :
    discoverFiles dirPath r1 = discoverFiles dirPath r2 ∧
    discoverFilesFlat dirPath r1 = discoverFilesFlat dirPath r2 := by
  subst h
  exact ⟨rfl, rfl⟩

/-- C5 witness: two runs on a one-file directory agree. -/
theorem discoverFiles_deterministic_witness :
    FSNode.dir "." [FSNode.file "a.txt"] =
      FSNode.dir "." [FSNode.file "a.txt"] ∧
    discoverFiles "." (FSNode.dir "." [FSNode.file "a.txt"]) =
      discoverFiles "." (FSNode.dir "." [FSNode.file "a.txt"]) :=
  ⟨rfl, (discoverFiles_deterministic "." (FSNode.dir "." [FSNode.file "a.txt"])
      (FSNode.dir "." [FSNode.file "a.txt"]) rfl).1⟩

/-- C6: for every discovered file path — including a path containing a
double-quote character — the appended token is literally ` --file "` then
the path then `"`, with no escaping or transformation applied. -/
theorem fileParams_no_escaping :
    (∀ (files : List String) (p : String),
        fileParams (files ++ [p]) =
          fileParams files ++ " --file \"" ++ p ++ "\"") ∧
    fileParams ["a\"b.yaml"] = " --file \"a\"b.yaml\"" := by
  refine ⟨?_, rfl⟩
  intro files p
  simp [fileParams, List.foldl_append]

/-- C7: after `setSubscription` succeeds, the subscription reported by
`getSubscription` equals the override value. -/
theorem setSubscription_then_get (subscriptionID : String) (clientOk : Bool)
    (s s2 : Session)
    (h : setSubscription subscriptionID clientOk s = .ok s2) :
    getSubscription s2 = .ok subscriptionID := by
  unfold setSubscription at h
  split at h
  · exact absurd h (by simp)
  · split at h
    · exact absurd h (by simp)
    · rename_i hlog hclient
      simp only [Except.ok.injEq] at h
      subst h
      simp only [Bool.not_eq_true'] at hlog
      have hl : s.loggedIn = true := by
        cases hb : s.loggedIn with
        | true => rfl
        | false => exact absurd hb hlog
      simp [getSubscription, hl]

/-- C7 witness: overriding the subscription of a logged-in session makes
`getSubscription` report the override. -/
theorem setSubscription_then_get_witness :
    setSubscription "sub-123" true ⟨true, "old-sub"⟩ =
      .ok ⟨true, "sub-123"⟩ ∧
    getSubscription ⟨true, "sub-123"⟩ = .ok "sub-123" :=
  ⟨rfl, setSubscription_then_get "sub-123" true ⟨true, "old-sub"⟩
    ⟨true, "sub-123"⟩ rfl⟩

/-- C8 counterexample: the two discovery variants differ on a directory with
a nested file: the recursive walk finds `d/sub/x`, the flat listing finds
nothing. -/
theorem walk_flat_disagree :
    discoverFiles "d" (FSNode.dir "d" [FSNode.dir "sub" [FSNode.file "x"]]) ≠
      discoverFilesFlat "d"
        (FSNode.dir "d" [FSNode.dir "sub" [FSNode.file "x"]]) := by
  intro heq
  have h1 : discoverFiles "d"
      (FSNode.dir "d" [FSNode.dir "sub" [FSNode.file "x"]]) =
      .ok ["d/sub/x"] := rfl
  have h2 : discoverFilesFlat "d"
      (FSNode.dir "d" [FSNode.dir "sub" [FSNode.file "x"]]) = .ok [] := rfl
  rw [h1, h2] at heq
  simp at heq

/-- C8 amended: the recursive-walk and flat-listing discovery variants are
not equivalent in general (they differ as soon as a file sits inside a
subdirectory); they return the same list exactly on directories whose
top-level entries are plain files with ordinary names or subtrees containing
no files and no failing entries. -/
theorem walk_flat_agree_on_flat (dirPath nm : String)
    (children : List FSNode) (h : children.all entryAgrees = true) :
    discoverFiles dirPath (FSNode.dir nm children) =
      discoverFilesFlat dirPath (FSNode.dir nm children) := by
  have hw := walkChildren_agree dirPath children h
  simp only [discoverFiles, walkRoot, hw, discoverFilesFlat,
    flat_foldl_eq, List.nil_append]

/-- C8 witness: on a directory holding two files and a childless
subdirectory the two variants agree. -/
theorem walk_flat_agree_on_flat_witness :
    ([FSNode.file "a.txt", FSNode.dir "s" [],
      FSNode.file "b.yaml"].all entryAgrees = true) ∧
    discoverFiles "d" (FSNode.dir "d" [FSNode.file "a.txt",
        FSNode.dir "s" [], FSNode.file "b.yaml"]) =
      discoverFilesFlat "d" (FSNode.dir "d" [FSNode.file "a.txt",
        FSNode.dir "s" [], FSNode.file "b.yaml"]) :=
  ⟨rfl, walk_flat_agree_on_flat "d" "d"
    [FSNode.file "a.txt", FSNode.dir "s" [], FSNode.file "b.yaml"] rfl⟩

/-- C9: a successful `loadCredentials` leaves the globals unchanged (the
`:=` declarations create shadowing locals and the later assignments write
those locals), so `authenticate` builds the subprocess environment from the
globals' previous values, independent of the environment just read. -/
theorem loadCredentials_frame (env : String → String) (g g2 : Globals)
    (h : loadCredentials env g = .ok g2) :
    g2 = g ∧
    ∀ loginOk : Bool, (authenticate env g loginOk).2 = [loginCall g] := by
  have hg : g2 = g := by
    simp only [loadCredentials] at h
    split at h
    · exact absurd h (by simp)
    · simp only [Except.ok.injEq] at h
      exact h.symm
  refine ⟨hg, fun loginOk => ?_⟩
  have h2 : loadCredentials env g = .ok g := hg ▸ h
  cases loginOk <;> simp [authenticate, h2]

/-- C9 witness: with globals `gA`/`gB`/`gC` and every environment variable
reading `from-env`, loading succeeds, the globals stay `gA`/`gB`/`gC`, and
the login subprocess environment is built from those prior globals, not
from the values just read. -/
theorem loadCredentials_frame_witness :
    loadCredentials (fun _ => "from-env") ⟨"gA", "gB", "gC", false⟩ =
      .ok ⟨"gA", "gB", "gC", false⟩ ∧
    (authenticate (fun _ => "from-env") ⟨"gA", "gB", "gC", false⟩ true).2 =
      [loginCall ⟨"gA", "gB", "gC", false⟩] ∧
    (loginCall ⟨"gA", "gB", "gC", false⟩).extraEnv =
      ["AZURE_APP_ID=gA", "AZURE_CLIENT_SECRET=gB", "AZURE_TENANT_ID=gC"] :=
  ⟨rfl,
   (loadCredentials_frame (fun _ => "from-env") ⟨"gA", "gB", "gC", false⟩
      ⟨"gA", "gB", "gC", false⟩ rfl).2 true,
   rfl⟩

/-- C10: every line passing the guard `strings.Contains(line, "id:")`
contains a colon, so `strings.Split(line, ":")` yields at least two parts
and the index access `[1]` is in bounds. -/
theorem split_index_in_bounds (line : List Char)
    (h : lineHasID line = true) :
    1 < (splitOnChar ':' line).length := by
  have hc : (':' : Char) ∈ line :=
    containsList_mem ['i', 'd', ':'] line h ':' (by simp)
  exact two_le_splitOnChar_length ':' line hc

/-- C10 witness: a concrete `az account show` output line passing the guard
splits into more than one part. -/
theorem split_index_in_bounds_witness :
    lineHasID "  id: 1234-abcd".toList = true ∧
    1 < (splitOnChar ':' "  id: 1234-abcd".toList).length :=
  ⟨by decide, split_index_in_bounds "  id: 1234-abcd".toList (by decide)⟩
